import Mathlib

/-!
Shallow embedding of the NBT (named-binary-tag) decoder from
`src/nbt/mod.rs` and `src/nbt/reader.rs` of thanatos/libminecraft.

The byte source (the Rust `Read` object; the tests use `io::Cursor`) is
modelled as a list of natural numbers, each < 256 after the explicit
`% 256` applied where a byte is numerically interpreted.  Every reader
function consumes a prefix of the list and returns the remainder.

Rust `panic!` sites and `unwrap` calls are modelled explicitly as the
`Res.panicked` outcome carrying the panic site; `io::Error` values are
modelled by their kind, since the decoder only ever constructs or
inspects the kind.  The unbounded Rust loops (the entry loop inside
`ReadingCompound::continue_read` and the driving loop of
`parse_nbt_stream`) are modelled with an explicit fuel parameter and a
distinguished `Res.fuelOut` outcome; the top-level entry point supplies
a fuel value computed from the input, which the termination theorems
below prove can never be exhausted.
-/

namespace LibMinecraft

/-- Tag constant from `mod.rs`. -/
def TAG_END : Nat := 0
/-- Tag constant from `mod.rs`. -/
def TAG_BYTE : Nat := 1
/-- Tag constant from `mod.rs`. -/
def TAG_SHORT : Nat := 2
/-- Tag constant from `mod.rs`. -/
def TAG_INT : Nat := 3
/-- Tag constant from `mod.rs`. -/
def TAG_LONG : Nat := 4
/-- Tag constant from `mod.rs`. -/
def TAG_FLOAT : Nat := 5
/-- Tag constant from `mod.rs`. -/
def TAG_DOUBLE : Nat := 6
/-- Tag constant from `mod.rs`. -/
def TAG_BYTE_ARRAY : Nat := 7
/-- Tag constant from `mod.rs`. -/
def TAG_STRING : Nat := 8
/-- Tag constant from `mod.rs`. -/
def TAG_LIST : Nat := 9
/-- Tag constant from `mod.rs`. -/
def TAG_COMPOUND : Nat := 10
/-- Tag constant from `mod.rs`. -/
def TAG_INT_ARRAY : Nat := 11

/-- The kind of an `io::Error`.  The decoder itself never constructs io
errors; the ones it can observe come from the byte source (end of input
during an exact read, or a transport fault). -/
inductive IoErrorKind where
  | unexpectedEof
  | transportFault
deriving DecidableEq, Repr

/-- `NbtReadError` from `reader.rs` (lines 27-34).  `InvalidUtf8` drops
the carried `FromUtf8Error` payload, which the decoder never inspects. -/
inductive NbtReadError where
  | UnexpectedEof
  | UnknownTagType (tag : Nat)
  | InvalidTagType
  | IoError (kind : IoErrorKind)
  | InvalidUtf8
deriving DecidableEq, Repr

/-- The `panic!` and `unwrap` sites of `reader.rs`, one constructor per
site (the two stack unwraps inside `parse_nbt_stream` share one
constructor because they guard the same condition: an empty stack at the
head of a driving-loop iteration). -/
inductive PanicSite where
  | readSimpleNonSimple (tag : Nat)
  | startReadNotListOrCompound (tag : Nat)
  | emptyStackUnwrap
  | pendingNameUnwrap
  | listOfListSimpleNotList
  | listOfListResumeNotList
  | listOfCompoundSimple
  | listOfCompoundResumeNotCompound
deriving DecidableEq, Repr

/-- Outcome of running a piece of the decoder: a value, an
`NbtReadError`, a panic at a given site, or fuel exhaustion of the
modelled loop (proved unreachable below). -/
inductive Res (α : Type) where
  | ok (a : α)
  | err (e : NbtReadError)
  | panicked (p : PanicSite)
  | fuelOut
deriving Repr

/-- Sequencing of decoder steps: the Rust `?` operator / early return. -/
def Res.bind {α β : Type} (r : Res α) (f : α → Res β) : Res β :=
  match r with
  | .ok a => f a
  | .err e => .err e
  | .panicked p => .panicked p
  | .fuelOut => .fuelOut

/-- A byte stream: the sequence of bytes the source will deliver. -/
abbrev ByteStream := List Nat

/-- Big-endian interpretation of a byte list as an unsigned number; the
`% 256` keeps each limb inside one machine byte. -/
def beNat (bytes : List Nat) : Nat :=
  bytes.foldl (fun acc b => acc * 256 + b % 256) 0

/-- Two's-complement reinterpretation of a `width`-byte unsigned value. -/
def toSigned (width : Nat) (u : Nat) : Int :=
  if u < 2 ^ (8 * width - 1) then (u : Int) else (u : Int) - 2 ^ (8 * width)

/-- `byteorder`'s `read_u8`: one byte, or an `UnexpectedEof`-kind io
error converted through `From<io::Error>` into `NbtReadError::IoError`. -/
def read_u8 (s : ByteStream) : Res (Nat × ByteStream) :=
  match s with
  | [] => .err (.IoError .unexpectedEof)
  | b :: rest => .ok (b % 256, rest)

/-- `byteorder`'s `read_i8`. -/
def read_i8 (s : ByteStream) : Res (Int × ByteStream) :=
  match s with
  | [] => .err (.IoError .unexpectedEof)
  | b :: rest => .ok (toSigned 1 (b % 256), rest)

/-- `read_exact` semantics shared by the multi-byte `byteorder` readers:
exactly `n` bytes, or an `UnexpectedEof`-kind io error (which
`From<io::Error>` turns into `NbtReadError::IoError`, line 60-64). -/
def readExactN (n : Nat) (s : ByteStream) : Res (List Nat × ByteStream) :=
  if s.length < n then .err (.IoError .unexpectedEof)
  else .ok (s.take n, s.drop n)

/-- `read_number!(reader, read_u16)` (reader.rs lines 74-79). -/
def read_u16 (s : ByteStream) : Res (Nat × ByteStream) :=
  (readExactN 2 s).bind fun (bs, rest) => .ok (beNat bs, rest)

/-- `read_number!(reader, read_u32)`. -/
def read_u32 (s : ByteStream) : Res (Nat × ByteStream) :=
  (readExactN 4 s).bind fun (bs, rest) => .ok (beNat bs, rest)

/-- `read_number!(reader, read_i16)`. -/
def read_i16 (s : ByteStream) : Res (Int × ByteStream) :=
  (readExactN 2 s).bind fun (bs, rest) => .ok (toSigned 2 (beNat bs), rest)

/-- `read_number!(reader, read_i32)`. -/
def read_i32 (s : ByteStream) : Res (Int × ByteStream) :=
  (readExactN 4 s).bind fun (bs, rest) => .ok (toSigned 4 (beNat bs), rest)

/-- `read_number!(reader, read_i64)`. -/
def read_i64 (s : ByteStream) : Res (Int × ByteStream) :=
  (readExactN 8 s).bind fun (bs, rest) => .ok (toSigned 8 (beNat bs), rest)

/-- `read_number!(reader, read_f32)`: the value is kept as its raw
big-endian bit pattern, which is all the decoder does with it. -/
def read_f32 (s : ByteStream) : Res (Nat × ByteStream) :=
  (readExactN 4 s).bind fun (bs, rest) => .ok (beNat bs, rest)

/-- `read_number!(reader, read_f64)`: raw bit pattern, as for `f32`. -/
def read_f64 (s : ByteStream) : Res (Nat × ByteStream) :=
  (readExactN 8 s).bind fun (bs, rest) => .ok (beNat bs, rest)

/-- `read_n_bytes_to_vector` (reader.rs lines 107-117): one single
`Read::read` call (the cursor delivers `min length remaining` bytes) and
`NbtReadError::UnexpectedEof` whenever that one call comes up short —
there is no retry loop. -/
def read_n_bytes_to_vector (length : Nat) (s : ByteStream) :
    Res (List Nat × ByteStream) :=
  let bytes_read := min length s.length
  if bytes_read ≠ length then .err .UnexpectedEof
  else .ok (s.take length, s.drop length)

/-- Continuation byte test of strict UTF-8 validation. -/
def isCont (b : Nat) : Bool := 128 ≤ b && b ≤ 191

/-- Strict UTF-8 validity, the check `String::from_utf8` performs:
rejects overlong forms, surrogates and code points above 0x10FFFF. -/
def utf8Valid : List Nat → Bool
  | [] => true
  | b0 :: rest =>
    if b0 < 128 then utf8Valid rest
    else
      match rest with
      | [] => false
      | b1 :: r1 =>
        if 194 ≤ b0 && b0 ≤ 223 then isCont b1 && utf8Valid r1
        else
          match r1 with
          | [] => false
          | b2 :: r2 =>
            if b0 == 224 then
              (160 ≤ b1 && b1 ≤ 191) && isCont b2 && utf8Valid r2
            else if (225 ≤ b0 && b0 ≤ 236) || b0 == 238 || b0 == 239 then
              isCont b1 && isCont b2 && utf8Valid r2
            else if b0 == 237 then
              (128 ≤ b1 && b1 ≤ 159) && isCont b2 && utf8Valid r2
            else
              match r2 with
              | [] => false
              | b3 :: r3 =>
                if b0 == 240 then
                  (144 ≤ b1 && b1 ≤ 191) && isCont b2 && isCont b3 && utf8Valid r3
                else if 241 ≤ b0 && b0 ≤ 243 then
                  isCont b1 && isCont b2 && isCont b3 && utf8Valid r3
                else if b0 == 244 then
                  (128 ≤ b1 && b1 ≤ 143) && isCont b2 && isCont b3 && utf8Valid r3
                else false

/-- A decoded Rust `String`, modelled by its (UTF-8 valid) bytes. -/
abbrev NbtStr := List Nat

/-- `read_nbt_string` (reader.rs lines 147-153): unsigned 2-byte length
prefix, exact payload, UTF-8 validation. -/
def read_nbt_string (s : ByteStream) : Res (NbtStr × ByteStream) :=
  (read_u16 s).bind fun (length, s1) =>
  (read_n_bytes_to_vector length s1).bind fun (bytes, s2) =>
  if utf8Valid bytes then .ok (bytes, s2) else .err .InvalidUtf8

/-- `read_nbt_byte_array` (reader.rs lines 156-161): unsigned 4-byte
length prefix then that many raw bytes. -/
def read_nbt_byte_array (s : ByteStream) : Res (List Nat × ByteStream) :=
  (read_u32 s).bind fun (length, s1) =>
  read_n_bytes_to_vector length s1

/-- The `for _ in 0..length { vec.push(...) }` loop shared by
`read_nbt_int_array` and the `read_simple_list!` macro. -/
def read_repeated {α : Type} (read_func : ByteStream → Res (α × ByteStream)) :
    Nat → ByteStream → Res (List α × ByteStream)
  | 0, s => .ok ([], s)
  | n + 1, s =>
    (read_func s).bind fun (x, s1) =>
    (read_repeated read_func n s1).bind fun (xs, s2) =>
    .ok (x :: xs, s2)

/-- `read_nbt_int_array` (reader.rs lines 164-173): unsigned 4-byte
length prefix, then that many big-endian signed 32-bit integers. -/
def read_nbt_int_array (s : ByteStream) : Res (List Int × ByteStream) :=
  (read_u32 s).bind fun (length, s1) =>
  read_repeated read_i32 length s1

mutual

/-- `Value` from `mod.rs` (lines 23-36).  `Float`/`Double` carry their
raw big-endian bit patterns; a Rust `String` is its byte vector; a
`Compound` (`HashMap<String, Value>`) is an association list with unique
keys maintained by `Compound.insert` below. -/
inductive Value where
  | Byte (v : Int)
  | Short (v : Int)
  | Int (v : Int)
  | Long (v : Int)
  | Float (bits : Nat)
  | Double (bits : Nat)
  | ByteArray (v : List Nat)
  | String (v : List Nat)
  | List (l : NbtList)
  | Compound (c : List (List Nat × Value))
  | IntArray (v : List Int)

/-- `List` from `mod.rs` (lines 50-68), with the extra `Empty` case for
zero-length lists whose inner element type is `TAG_End`. -/
inductive NbtList where
  | Empty
  | Byte (v : List Int)
  | Short (v : List Int)
  | Int (v : List Int)
  | Long (v : List Int)
  | Float (v : List Nat)
  | Double (v : List Nat)
  | ByteArray (v : List (List Nat))
  | String (v : List (List Nat))
  | List (v : List NbtList)
  | Compound (v : List (List (List Nat × Value)))
  | IntArray (v : List (List Int))

end

/-- `Compound = HashMap<String, Value>`, as an association list. -/
abbrev Compound := List (NbtStr × Value)

/-- `HashMap::insert`: replace the entry under an existing key, else add
the entry (last write wins, one entry per key). -/
def Compound.insert (m : Compound) (k : NbtStr) (v : Value) : Compound :=
  match m with
  | [] => [(k, v)]
  | (k0, v0) :: rest =>
    if k0 = k then (k, v) :: rest else (k0, v0) :: Compound.insert rest k v

/-- `HashMap::get`. -/
def Compound.lookupKey (m : Compound) (k : NbtStr) : Option Value :=
  match m with
  | [] => none
  | (k0, v0) :: rest => if k0 = k then some v0 else Compound.lookupKey rest k

/-- Number of entries stored under a key. -/
def Compound.countKey (m : Compound) (k : NbtStr) : Nat :=
  (m.filter (fun e => e.1 == k)).length

/-- `RootValue` from `mod.rs` (lines 41-44). -/
structure RootValue where
  name : NbtStr
  value : Value

/-- The `UnknownTagType` struct of reader.rs (lines 120-122). -/
structure UnknownTagType where
  tag_type : Nat
deriving DecidableEq

/-- `is_simple_value` (reader.rs lines 125-144), including its
classification of `TAG_INT_ARRAY` as not simple (line 137). -/
def is_simple_value (tag_type : Nat) : Except UnknownTagType Bool :=
  if tag_type = TAG_BYTE then .ok true
  else if tag_type = TAG_SHORT then .ok true
  else if tag_type = TAG_INT then .ok true
  else if tag_type = TAG_LONG then .ok true
  else if tag_type = TAG_FLOAT then .ok true
  else if tag_type = TAG_DOUBLE then .ok true
  else if tag_type = TAG_BYTE_ARRAY then .ok true
  else if tag_type = TAG_STRING then .ok true
  else if tag_type = TAG_LIST then .ok false
  else if tag_type = TAG_COMPOUND then .ok false
  else if tag_type = TAG_INT_ARRAY then .ok false
  else .error ⟨tag_type⟩

/-- `read_simple_value` (reader.rs lines 176-193); the catch-all
`panic!` arm is the `readSimpleNonSimple` panic site. -/
def read_simple_value (tag_type : Nat) (s : ByteStream) :
    Res (Value × ByteStream) :=
  if tag_type = TAG_BYTE then
    (read_i8 s).bind fun (v, s1) => .ok (.Byte v, s1)
  else if tag_type = TAG_SHORT then
    (read_i16 s).bind fun (v, s1) => .ok (.Short v, s1)
  else if tag_type = TAG_INT then
    (read_i32 s).bind fun (v, s1) => .ok (.Int v, s1)
  else if tag_type = TAG_LONG then
    (read_i64 s).bind fun (v, s1) => .ok (.Long v, s1)
  else if tag_type = TAG_FLOAT then
    (read_f32 s).bind fun (v, s1) => .ok (.Float v, s1)
  else if tag_type = TAG_DOUBLE then
    (read_f64 s).bind fun (v, s1) => .ok (.Double v, s1)
  else if tag_type = TAG_BYTE_ARRAY then
    (read_nbt_byte_array s).bind fun (v, s1) => .ok (.ByteArray v, s1)
  else if tag_type = TAG_STRING then
    (read_nbt_string s).bind fun (v, s1) => .ok (.String v, s1)
  else if tag_type = TAG_INT_ARRAY then
    (read_nbt_int_array s).bind fun (v, s1) => .ok (.IntArray v, s1)
  else .panicked (.readSimpleNonSimple tag_type)

/-- `ReadingCompound` (reader.rs lines 324-327). -/
structure ReadingCompound where
  value : Compound
  name_of_current_value : Option NbtStr

/-- `ReadingListOfList` (reader.rs lines 368-371). -/
structure ReadingListOfList where
  items_remaining : Nat
  value : List NbtList

/-- `ReadingListOfCompound` (reader.rs lines 420-423). -/
structure ReadingListOfCompound where
  items_remaining : Nat
  value : List Compound

/-- A `Box<ReadingComplex>` trait object: one of the three composite
parse states. -/
inductive ReadingComplex where
  | compound (st : ReadingCompound)
  | listOfList (st : ReadingListOfList)
  | listOfCompound (st : ReadingListOfCompound)

/-- `ComplexReadResult` (reader.rs lines 196-200). -/
inductive ComplexReadResult where
  | NotFinished
  | DescendInto (r : ReadingComplex)
  | Done

/-- `ReadStart` (reader.rs lines 211-214). -/
inductive ReadStart where
  | Simple (v : Value)
  | Complex (r : ReadingComplex)

/-- `ListStart` (reader.rs lines 217-221). -/
inductive ListStart where
  | Simple (l : NbtList)
  | ListOfList (st : ReadingListOfList)
  | ListOfCompound (st : ReadingListOfCompound)

/-- `start_list_read` (reader.rs lines 239-281): reads the list header
(inner tag-type byte and unsigned 4-byte count), handles the empty-list
marker and the invalid non-empty `TAG_End` header, fully decodes lists
of simple element types via `read_simple_list!`, and hands lists of
lists / lists of compounds back as composite states. -/
def start_list_read (s : ByteStream) : Res (ListStart × ByteStream) :=
  (read_u8 s).bind fun (inner_tag_type, s1) =>
  (read_u32 s1).bind fun (number, s2) =>
  if inner_tag_type = TAG_END ∧ number = 0 then
    .ok (.Simple .Empty, s2)
  else if inner_tag_type = TAG_END then .err .InvalidTagType
  else if inner_tag_type = TAG_BYTE then
    (read_repeated read_i8 number s2).bind fun (l, s3) =>
      .ok (.Simple (.Byte l), s3)
  else if inner_tag_type = TAG_SHORT then
    (read_repeated read_i16 number s2).bind fun (l, s3) =>
      .ok (.Simple (.Short l), s3)
  else if inner_tag_type = TAG_INT then
    (read_repeated read_i32 number s2).bind fun (l, s3) =>
      .ok (.Simple (.Int l), s3)
  else if inner_tag_type = TAG_LONG then
    (read_repeated read_i64 number s2).bind fun (l, s3) =>
      .ok (.Simple (.Long l), s3)
  else if inner_tag_type = TAG_FLOAT then
    (read_repeated read_f32 number s2).bind fun (l, s3) =>
      .ok (.Simple (.Float l), s3)
  else if inner_tag_type = TAG_DOUBLE then
    (read_repeated read_f64 number s2).bind fun (l, s3) =>
      .ok (.Simple (.Double l), s3)
  else if inner_tag_type = TAG_BYTE_ARRAY then
    (read_repeated read_nbt_byte_array number s2).bind fun (l, s3) =>
      .ok (.Simple (.ByteArray l), s3)
  else if inner_tag_type = TAG_STRING then
    (read_repeated read_nbt_string number s2).bind fun (l, s3) =>
      .ok (.Simple (.String l), s3)
  else if inner_tag_type = TAG_LIST then
    .ok (.ListOfList ⟨number, []⟩, s2)
  else if inner_tag_type = TAG_COMPOUND then
    .ok (.ListOfCompound ⟨number, []⟩, s2)
  else if inner_tag_type = TAG_INT_ARRAY then
    (read_repeated read_nbt_int_array number s2).bind fun (l, s3) =>
      .ok (.Simple (.IntArray l), s3)
  else .err (.UnknownTagType inner_tag_type)

/-- `start_potentially_complex_read` (reader.rs lines 288-321): a tag
classified simple is decoded in one step; `TAG_LIST` defers to
`start_list_read`; `TAG_COMPOUND` yields a fresh compound state; any
other non-simple tag hits the catch-all `panic!` (line 316). -/
def start_potentially_complex_read (tag_type : Nat) (s : ByteStream) :
    Res (ReadStart × ByteStream) :=
  match is_simple_value tag_type with
  | .error u => .err (.UnknownTagType u.tag_type)
  | .ok true =>
    (read_simple_value tag_type s).bind fun (v, s1) => .ok (.Simple v, s1)
  | .ok false =>
    if tag_type = TAG_LIST then
      (start_list_read s).bind fun (ls, s1) =>
        match ls with
        | .Simple list => .ok (.Simple (.List list), s1)
        | .ListOfList reading => .ok (.Complex (.listOfList reading), s1)
        | .ListOfCompound reading => .ok (.Complex (.listOfCompound reading), s1)
    else if tag_type = TAG_COMPOUND then
      .ok (.Complex (.compound ⟨[], none⟩), s)
    else .panicked (.startReadNotListOrCompound tag_type)

/-- The entry loop inside `ReadingCompound::continue_read` (reader.rs
lines 331-354), with explicit fuel (every iteration consumes at least
the tag byte, so `s.length + 1` fuel always suffices — proved below). -/
def compound_continue_read_go :
    Nat → ReadingCompound → ByteStream →
    Res ((ComplexReadResult × ReadingCompound) × ByteStream)
  | 0, _, _ => .fuelOut
  | fuel + 1, st, s =>
    (read_u8 s).bind fun (tag_type, s1) =>
    if tag_type = TAG_END then .ok ((.Done, st), s1)
    else
      (read_nbt_string s1).bind fun (tag_name, s2) =>
      (start_potentially_complex_read tag_type s2).bind fun (mcr, s3) =>
      match mcr with
      | .Simple value =>
        compound_continue_read_go fuel
          ⟨st.value.insert tag_name value, st.name_of_current_value⟩ s3
      | .Complex read_complex =>
        .ok ((.DescendInto read_complex, ⟨st.value, some tag_name⟩), s3)

/-- `ReadingCompound::continue_read`, with the always-sufficient fuel. -/
def ReadingCompound.continue_read (st : ReadingCompound) (s : ByteStream) :
    Res ((ComplexReadResult × ReadingCompound) × ByteStream) :=
  compound_continue_read_go (s.length + 1) st s

/-- `ReadingCompound::descended_read_complete` (reader.rs lines
356-360): takes the stashed pending name (the `unwrap` is the
`pendingNameUnwrap` panic site) and stores the child's value under it. -/
def ReadingCompound.descended_read_complete (st : ReadingCompound)
    (value : Value) : Res ReadingCompound :=
  match st.name_of_current_value with
  | none => .panicked .pendingNameUnwrap
  | some name => .ok ⟨st.value.insert name value, none⟩

/-- `ReadingListOfList::continue_read` (reader.rs lines 375-401). -/
def ReadingListOfList.continue_read (st : ReadingListOfList)
    (s : ByteStream) :
    Res ((ComplexReadResult × ReadingListOfList) × ByteStream) :=
  if st.items_remaining = 0 then .ok ((.Done, st), s)
  else
    (start_potentially_complex_read TAG_LIST s).bind fun (mcr, s1) =>
    match mcr with
    | .Simple inner_value =>
      match inner_value with
      | .List inner_list =>
        .ok ((.NotFinished,
              ⟨st.items_remaining - 1, st.value ++ [inner_list]⟩), s1)
      | _ => .panicked .listOfListSimpleNotList
    | .Complex reading_complex =>
      .ok ((.DescendInto reading_complex,
            ⟨st.items_remaining - 1, st.value⟩), s1)

/-- `ReadingListOfList::descended_read_complete` (reader.rs 403-412). -/
def ReadingListOfList.descended_read_complete (st : ReadingListOfList)
    (inner_value : Value) : Res ReadingListOfList :=
  match inner_value with
  | .List inner_list => .ok ⟨st.items_remaining, st.value ++ [inner_list]⟩
  | _ => .panicked .listOfListResumeNotList

/-- `ReadingListOfCompound::continue_read` (reader.rs lines 427-449). -/
def ReadingListOfCompound.continue_read (st : ReadingListOfCompound)
    (s : ByteStream) :
    Res ((ComplexReadResult × ReadingListOfCompound) × ByteStream) :=
  if st.items_remaining = 0 then .ok ((.Done, st), s)
  else
    (start_potentially_complex_read TAG_COMPOUND s).bind fun (mcr, s1) =>
    match mcr with
    | .Simple _ => .panicked .listOfCompoundSimple
    | .Complex reading_complex =>
      .ok ((.DescendInto reading_complex,
            ⟨st.items_remaining - 1, st.value⟩), s1)

/-- `ReadingListOfCompound::descended_read_complete` (reader.rs
451-460). -/
def ReadingListOfCompound.descended_read_complete
    (st : ReadingListOfCompound) (inner_value : Value) :
    Res ReadingListOfCompound :=
  match inner_value with
  | .Compound inner_compound =>
    .ok ⟨st.items_remaining, st.value ++ [inner_compound]⟩
  | _ => .panicked .listOfCompoundResumeNotCompound

/-- Dynamic dispatch of `continue_read` on a `Box<ReadingComplex>`. -/
def ReadingComplex.continue_read (rc : ReadingComplex) (s : ByteStream) :
    Res ((ComplexReadResult × ReadingComplex) × ByteStream) :=
  match rc with
  | .compound st =>
    (st.continue_read s).bind fun ((res, st1), s1) =>
      .ok ((res, .compound st1), s1)
  | .listOfList st =>
    (st.continue_read s).bind fun ((res, st1), s1) =>
      .ok ((res, .listOfList st1), s1)
  | .listOfCompound st =>
    (st.continue_read s).bind fun ((res, st1), s1) =>
      .ok ((res, .listOfCompound st1), s1)

/-- Dynamic dispatch of `descended_read_complete`. -/
def ReadingComplex.descended_read_complete (rc : ReadingComplex)
    (value : Value) : Res ReadingComplex :=
  match rc with
  | .compound st =>
    (st.descended_read_complete value).bind fun st1 => .ok (.compound st1)
  | .listOfList st =>
    (st.descended_read_complete value).bind fun st1 => .ok (.listOfList st1)
  | .listOfCompound st =>
    (st.descended_read_complete value).bind fun st1 =>
      .ok (.listOfCompound st1)

/-- Dynamic dispatch of `final_value`. -/
def ReadingComplex.final_value (rc : ReadingComplex) : Value :=
  match rc with
  | .compound st => .Compound st.value
  | .listOfList st => .List (.List st.value)
  | .listOfCompound st => .List (.Compound st.value)

/-- Expected-element counts still pending in one composite state; used
by the loop-termination measure. -/
def items_measure (rc : ReadingComplex) : Nat :=
  match rc with
  | .compound _ => 0
  | .listOfList st => st.items_remaining
  | .listOfCompound st => st.items_remaining

/-- Termination measure of the driving loop over a stack and stream:
every iteration strictly decreases it (proved below). -/
def loop_measure (stack : List ReadingComplex) (s : ByteStream) : Nat :=
  2 ^ 33 * s.length + 2 * (stack.map items_measure).sum + stack.length

/-- The driving loop of `parse_nbt_stream` (reader.rs lines 483-509),
with explicit fuel.  The head of the list is the top of the
`in_progress_reads` stack; the `[]` branch is the (unreachable) empty
stack guarded by the two `unwrap` calls. -/
def parse_loop :
    Nat → List ReadingComplex → ByteStream → Res (Value × ByteStream)
  | 0, _, _ => .fuelOut
  | fuel + 1, in_progress_reads, s =>
    match in_progress_reads with
    | [] => .panicked .emptyStackUnwrap
    | working_read :: rest =>
      (working_read.continue_read s).bind fun ((result, working_read1), s1) =>
      match result with
      | .NotFinished => parse_loop fuel (working_read1 :: rest) s1
      | .DescendInto next_read =>
        parse_loop fuel (next_read :: working_read1 :: rest) s1
      | .Done =>
        let value := working_read1.final_value
        match rest with
        | [] => .ok (value, s1)
        | parent :: rest2 =>
          (parent.descended_read_complete value).bind fun parent1 =>
            parse_loop fuel (parent1 :: rest2) s1

/-- `parse_nbt_stream` (reader.rs lines 468-510): root tag byte, root
name, then either a simple root value or the driving loop run to
completion.  The loop fuel is the always-sufficient `loop_measure + 1`. -/
def parse_nbt_stream (s : ByteStream) : Res RootValue :=
  (read_u8 s).bind fun (root_tag_type, s1) =>
  (read_nbt_string s1).bind fun (root_tag_name, s2) =>
  (start_potentially_complex_read root_tag_type s2).bind fun (read_start, s3) =>
  match read_start with
  | .Simple value => .ok ⟨root_tag_name, value⟩
  | .Complex reading =>
    (parse_loop (loop_measure [reading] s3 + 1) [reading] s3).bind
      fun (value, _) => .ok ⟨root_tag_name, value⟩

/-! ## Predicates used by the verification -/

/-- Panic sites other than the two `unwrap` calls named by the stack
invariant (`last_mut().unwrap()` / `pop().unwrap()` in
`parse_nbt_stream` and the pending-name `unwrap` in
`ReadingCompound::descended_read_complete`). -/
def PanicSite.benign (p : PanicSite) : Prop :=
  p ≠ .emptyStackUnwrap ∧ p ≠ .pendingNameUnwrap

/-- A result that is a value or an error, or at worst a benign panic:
never fuel exhaustion, never one of the two stack-invariant unwraps. -/
def Res.tame {α : Type} : Res α → Prop
  | .ok _ => True
  | .err _ => True
  | .panicked p => p.benign
  | .fuelOut => False

/-- Bound on the pending element count carried by a `ListStart`. -/
def ListStart.itemsOk : ListStart → Prop
  | .Simple _ => True
  | .ListOfList st => st.items_remaining < 4294967296
  | .ListOfCompound st => st.items_remaining < 4294967296

/-- Bound on the pending element count carried by a `ReadStart`. -/
def ReadStart.itemsOk : ReadStart → Prop
  | .Simple _ => True
  | .Complex rc => items_measure rc < 4294967296

/-- A compound state below the top of the stack always carries its
pending entry name; list states carry none. -/
def compound_named : ReadingComplex → Prop
  | .compound st => st.name_of_current_value.isSome = true
  | .listOfList _ => True
  | .listOfCompound _ => True

/-! ## Basic inversion and consumption lemmas -/

/-- Inverting a successful `Res.bind`. -/
theorem bind_eq_ok {α β : Type} {r : Res α} {f : α → Res β} {b : β}
    (h : r.bind f = .ok b) : ∃ a, r = .ok a ∧ f a = .ok b := by
  cases r with
  | ok a => exact ⟨a, rfl, h⟩
  | err e => simp [Res.bind] at h
  | panicked p => simp [Res.bind] at h
  | fuelOut => simp [Res.bind] at h

/-- `beNat` on any accumulator stays under the byte-width bound. -/
theorem beNat_foldl_lt (l : List Nat) :
    ∀ acc : Nat,
      List.foldl (fun a b => a * 256 + b % 256) acc l < (acc + 1) * 256 ^ l.length := by
  induction l with
  | nil => intro acc; simp
  | cons b t ih =>
    intro acc
    have h1 := ih (acc * 256 + b % 256)
    have hb : b % 256 < 256 := Nat.mod_lt _ (by norm_num)
    have h2 : (acc * 256 + b % 256 + 1) * 256 ^ t.length ≤
        ((acc + 1) * 256) * 256 ^ t.length := by
      have : acc * 256 + b % 256 + 1 ≤ (acc + 1) * 256 := by omega
      exact Nat.mul_le_mul_right _ this
    have h3 : ((acc + 1) * 256) * 256 ^ t.length = (acc + 1) * 256 ^ (t.length + 1) := by
      ring
    simp only [List.foldl, List.length_cons]
    omega

/-- A big-endian byte list is bounded by `256 ^ length`. -/
theorem beNat_lt (l : List Nat) : beNat l < 256 ^ l.length := by
  have := beNat_foldl_lt l 0
  simpa [beNat] using this

theorem read_u8_spec {s : ByteStream} {b : Nat} {s1 : ByteStream}
    (h : read_u8 s = .ok (b, s1)) : s1.length + 1 = s.length ∧ b < 256 := by
  cases s with
  | nil => simp [read_u8] at h
  | cons b0 t =>
    simp [read_u8] at h
    obtain ⟨h1, h2⟩ := h
    subst h1; subst h2
    exact ⟨by simp, Nat.mod_lt _ (by norm_num)⟩

theorem read_i8_spec {s : ByteStream} {v : Int} {s1 : ByteStream}
    (h : read_i8 s = .ok (v, s1)) : s1.length + 1 = s.length := by
  cases s with
  | nil => simp [read_i8] at h
  | cons b0 t =>
    simp [read_i8] at h
    obtain ⟨-, h2⟩ := h
    subst h2; simp

theorem readExactN_spec {n : Nat} {s : ByteStream} {bs : List Nat} {s1 : ByteStream}
    (h : readExactN n s = .ok (bs, s1)) :
    s1.length + n = s.length ∧ bs.length = n := by
  unfold readExactN at h
  split at h
  · simp at h
  · rename_i hle
    simp at h
    obtain ⟨h1, h2⟩ := h
    subst h1; subst h2
    constructor
    · simp; omega
    · simp; omega

theorem read_u16_spec {s : ByteStream} {v : Nat} {s1 : ByteStream}
    (h : read_u16 s = .ok (v, s1)) : s1.length + 2 = s.length ∧ v < 65536 := by
  unfold read_u16 at h
  obtain ⟨⟨bs, s2⟩, hr, hf⟩ := bind_eq_ok h
  simp at hf
  obtain ⟨h1, h2⟩ := hf
  subst h1; subst h2
  obtain ⟨hl, hbl⟩ := readExactN_spec hr
  refine ⟨hl, ?_⟩
  have := beNat_lt bs
  rw [hbl] at this
  simpa using this

theorem read_u32_spec {s : ByteStream} {v : Nat} {s1 : ByteStream}
    (h : read_u32 s = .ok (v, s1)) :
    s1.length + 4 = s.length ∧ v < 4294967296 := by
  unfold read_u32 at h
  obtain ⟨⟨bs, s2⟩, hr, hf⟩ := bind_eq_ok h
  simp at hf
  obtain ⟨h1, h2⟩ := hf
  subst h1; subst h2
  obtain ⟨hl, hbl⟩ := readExactN_spec hr
  refine ⟨hl, ?_⟩
  have := beNat_lt bs
  rw [hbl] at this
  simpa using this

theorem read_i16_spec {s : ByteStream} {v : Int} {s1 : ByteStream}
    (h : read_i16 s = .ok (v, s1)) : s1.length + 2 = s.length := by
  unfold read_i16 at h
  obtain ⟨⟨bs, s2⟩, hr, hf⟩ := bind_eq_ok h
  simp at hf
  obtain ⟨-, h2⟩ := hf
  subst h2
  exact (readExactN_spec hr).1

theorem read_i32_spec {s : ByteStream} {v : Int} {s1 : ByteStream}
    (h : read_i32 s = .ok (v, s1)) : s1.length + 4 = s.length := by
  unfold read_i32 at h
  obtain ⟨⟨bs, s2⟩, hr, hf⟩ := bind_eq_ok h
  simp at hf
  obtain ⟨-, h2⟩ := hf
  subst h2
  exact (readExactN_spec hr).1

theorem read_i64_spec {s : ByteStream} {v : Int} {s1 : ByteStream}
    (h : read_i64 s = .ok (v, s1)) : s1.length + 8 = s.length := by
  unfold read_i64 at h
  obtain ⟨⟨bs, s2⟩, hr, hf⟩ := bind_eq_ok h
  simp at hf
  obtain ⟨-, h2⟩ := hf
  subst h2
  exact (readExactN_spec hr).1

theorem read_f32_spec {s : ByteStream} {v : Nat} {s1 : ByteStream}
    (h : read_f32 s = .ok (v, s1)) : s1.length + 4 = s.length := by
  unfold read_f32 at h
  obtain ⟨⟨bs, s2⟩, hr, hf⟩ := bind_eq_ok h
  simp at hf
  obtain ⟨-, h2⟩ := hf
  subst h2
  exact (readExactN_spec hr).1

theorem read_f64_spec {s : ByteStream} {v : Nat} {s1 : ByteStream}
    (h : read_f64 s = .ok (v, s1)) : s1.length + 8 = s.length := by
  unfold read_f64 at h
  obtain ⟨⟨bs, s2⟩, hr, hf⟩ := bind_eq_ok h
  simp at hf
  obtain ⟨-, h2⟩ := hf
  subst h2
  exact (readExactN_spec hr).1

theorem read_n_bytes_spec {n : Nat} {s : ByteStream} {bs : List Nat} {s1 : ByteStream}
    (h : read_n_bytes_to_vector n s = .ok (bs, s1)) : s1.length + n = s.length := by
  by_cases hc : min n s.length = n
  · simp [read_n_bytes_to_vector, hc] at h
    obtain ⟨h1, h2⟩ := h
    subst h1; subst h2
    simp
    omega
  · simp [read_n_bytes_to_vector, hc] at h

theorem read_nbt_string_spec {s : ByteStream} {a : NbtStr} {s1 : ByteStream}
    (h : read_nbt_string s = .ok (a, s1)) : s1.length + 2 ≤ s.length := by
  unfold read_nbt_string at h
  obtain ⟨⟨len, s2⟩, hr, hf⟩ := bind_eq_ok h
  obtain ⟨⟨bs, s3⟩, hb, hf2⟩ := bind_eq_ok hf
  have h1 := (read_u16_spec hr).1
  have h2 := read_n_bytes_spec hb
  by_cases hu : utf8Valid bs
  · simp [hu] at hf2
    obtain ⟨-, h4⟩ := hf2
    subst h4
    omega
  · simp [hu] at hf2

theorem read_nbt_byte_array_spec {s : ByteStream} {a : List Nat} {s1 : ByteStream}
    (h : read_nbt_byte_array s = .ok (a, s1)) : s1.length + 4 ≤ s.length := by
  unfold read_nbt_byte_array at h
  obtain ⟨⟨len, s2⟩, hr, hf⟩ := bind_eq_ok h
  have h1 := (read_u32_spec hr).1
  have h2 := read_n_bytes_spec hf
  omega

theorem read_repeated_spec {α : Type} {f : ByteStream → Res (α × ByteStream)}
    (hf : ∀ s a s1, f s = .ok (a, s1) → s1.length ≤ s.length) :
    ∀ n s l s1, read_repeated f n s = .ok (l, s1) → s1.length ≤ s.length := by
  intro n
  induction n with
  | zero =>
    intro s l s1 h
    simp [read_repeated] at h
    obtain ⟨-, h2⟩ := h
    subst h2; exact le_refl _
  | succ m ih =>
    intro s l s1 h
    unfold read_repeated at h
    obtain ⟨⟨x, s2⟩, hr, hf2⟩ := bind_eq_ok h
    obtain ⟨⟨xs, s3⟩, hrep, hf3⟩ := bind_eq_ok hf2
    simp at hf3
    obtain ⟨-, h4⟩ := hf3
    subst h4
    exact le_trans (ih _ _ _ hrep) (hf _ _ _ hr)

theorem read_nbt_int_array_spec {s : ByteStream} {a : List Int} {s1 : ByteStream}
    (h : read_nbt_int_array s = .ok (a, s1)) : s1.length + 4 ≤ s.length := by
  unfold read_nbt_int_array at h
  obtain ⟨⟨len, s2⟩, hr, hf⟩ := bind_eq_ok h
  have h1 := (read_u32_spec hr).1
  have h2 := read_repeated_spec (fun s a s1 h => by have := read_i32_spec h; omega)
    len s2 a s1 hf
  omega

theorem read_simple_value_spec {t : Nat} {s : ByteStream} {v : Value} {s1 : ByteStream}
    (h : read_simple_value t s = .ok (v, s1)) : s1.length ≤ s.length := by
  unfold read_simple_value at h
  split_ifs at h
  all_goals (
    obtain ⟨⟨x, s2⟩, hr, hf⟩ := bind_eq_ok h
    simp at hf
    obtain ⟨-, h2⟩ := hf
    subst h2
    first
    | (have hq9 := read_i8_spec hr; omega)
    | (have hq9 := read_i16_spec hr; omega)
    | (have hq9 := read_i32_spec hr; omega)
    | (have hq9 := read_i64_spec hr; omega)
    | (have hq9 := read_f32_spec hr; omega)
    | (have hq9 := read_f64_spec hr; omega)
    | (have hq9 := read_nbt_byte_array_spec hr; omega)
    | (have hq9 := read_nbt_string_spec hr; omega)
    | (have hq9 := read_nbt_int_array_spec hr; omega))

/-! ## Structure of the composite-dispatch results -/

theorem start_list_read_spec {s : ByteStream} {r : ListStart} {s1 : ByteStream}
    (h : start_list_read s = .ok (r, s1)) :
    s1.length + 5 ≤ s.length ∧ r.itemsOk := by
  unfold start_list_read at h
  obtain ⟨⟨t, s2⟩, h8, h1⟩ := bind_eq_ok h
  obtain ⟨⟨number, s3⟩, h32, h2⟩ := bind_eq_ok h1
  have hs8 := (read_u8_spec h8).1
  have hs32 := read_u32_spec h32
  simp only at h2
  have hbranch : ∀ {β : Type} {rf : ByteStream → Res (β × ByteStream)}
      {mk : List β → NbtList},
      (∀ sx ax sx1, rf sx = .ok (ax, sx1) → sx1.length ≤ sx.length) →
      (read_repeated rf number s3).bind
        (fun (l, s4) => .ok (ListStart.Simple (mk l), s4)) = .ok (r, s1) →
      s1.length + 5 ≤ s.length ∧ r.itemsOk := by
    intro β rf mk hrf hb
    obtain ⟨⟨l, s4⟩, hrep, h5⟩ := bind_eq_ok hb
    simp only [Res.ok.injEq, Prod.mk.injEq] at h5
    obtain ⟨h3, h4⟩ := h5
    subst h3; subst h4
    have := read_repeated_spec hrf number s3 l s4 hrep
    exact ⟨by omega, trivial⟩
  by_cases c0 : t = TAG_END ∧ number = 0
  case pos =>
    rw [if_pos c0] at h2
    simp only [Res.ok.injEq, Prod.mk.injEq] at h2
    obtain ⟨h3, h4⟩ := h2
    subst h3; subst h4
    exact ⟨by omega, trivial⟩
  rw [if_neg c0] at h2
  by_cases c1 : t = TAG_END
  case pos => rw [if_pos c1] at h2; exact absurd h2 (by simp)
  rw [if_neg c1] at h2
  by_cases c2 : t = TAG_BYTE
  case pos =>
    rw [if_pos c2] at h2
    exact hbranch (fun sx ax sx1 hx => by have := read_i8_spec hx; omega) h2
  rw [if_neg c2] at h2
  by_cases c3 : t = TAG_SHORT
  case pos =>
    rw [if_pos c3] at h2
    exact hbranch (fun sx ax sx1 hx => by have := read_i16_spec hx; omega) h2
  rw [if_neg c3] at h2
  by_cases c4 : t = TAG_INT
  case pos =>
    rw [if_pos c4] at h2
    exact hbranch (fun sx ax sx1 hx => by have := read_i32_spec hx; omega) h2
  rw [if_neg c4] at h2
  by_cases c5 : t = TAG_LONG
  case pos =>
    rw [if_pos c5] at h2
    exact hbranch (fun sx ax sx1 hx => by have := read_i64_spec hx; omega) h2
  rw [if_neg c5] at h2
  by_cases c6 : t = TAG_FLOAT
  case pos =>
    rw [if_pos c6] at h2
    exact hbranch (fun sx ax sx1 hx => by have := read_f32_spec hx; omega) h2
  rw [if_neg c6] at h2
  by_cases c7 : t = TAG_DOUBLE
  case pos =>
    rw [if_pos c7] at h2
    exact hbranch (fun sx ax sx1 hx => by have := read_f64_spec hx; omega) h2
  rw [if_neg c7] at h2
  by_cases c8 : t = TAG_BYTE_ARRAY
  case pos =>
    rw [if_pos c8] at h2
    exact hbranch
      (fun sx ax sx1 hx => by have := read_nbt_byte_array_spec hx; omega) h2
  rw [if_neg c8] at h2
  by_cases c9 : t = TAG_STRING
  case pos =>
    rw [if_pos c9] at h2
    exact hbranch
      (fun sx ax sx1 hx => by have := read_nbt_string_spec hx; omega) h2
  rw [if_neg c9] at h2
  by_cases c10 : t = TAG_LIST
  case pos =>
    rw [if_pos c10] at h2
    simp only [Res.ok.injEq, Prod.mk.injEq] at h2
    obtain ⟨h3, h4⟩ := h2
    subst h3; subst h4
    refine ⟨by omega, ?_⟩
    simp only [ListStart.itemsOk]
    omega
  rw [if_neg c10] at h2
  by_cases c11 : t = TAG_COMPOUND
  case pos =>
    rw [if_pos c11] at h2
    simp only [Res.ok.injEq, Prod.mk.injEq] at h2
    obtain ⟨h3, h4⟩ := h2
    subst h3; subst h4
    refine ⟨by omega, ?_⟩
    simp only [ListStart.itemsOk]
    omega
  rw [if_neg c11] at h2
  by_cases c12 : t = TAG_INT_ARRAY
  case pos =>
    rw [if_pos c12] at h2
    exact hbranch
      (fun sx ax sx1 hx => by have := read_nbt_int_array_spec hx; omega) h2
  rw [if_neg c12] at h2
  exact absurd h2 (by simp)

/-- Definitional reshaping of `start_potentially_complex_read` at
`TAG_LIST`. -/
theorem spcr_list_eq (s : ByteStream) :
    start_potentially_complex_read TAG_LIST s =
      (start_list_read s).bind fun (ls, s1) =>
        match ls with
        | .Simple list => .ok (.Simple (.List list), s1)
        | .ListOfList reading => .ok (.Complex (.listOfList reading), s1)
        | .ListOfCompound reading =>
          .ok (.Complex (.listOfCompound reading), s1) := rfl

/-- `start_potentially_complex_read` at `TAG_COMPOUND` consumes nothing
and yields a fresh compound state. -/
theorem start_potentially_complex_read_compound (s : ByteStream) :
    start_potentially_complex_read TAG_COMPOUND s =
      .ok (.Complex (.compound ⟨[], none⟩), s) := rfl

/-- `start_potentially_complex_read` at `TAG_LIST` always consumes at
least the five header bytes. -/
theorem start_potentially_complex_read_list_spec {s : ByteStream}
    {r : ReadStart} {s1 : ByteStream}
    (h : start_potentially_complex_read TAG_LIST s = .ok (r, s1)) :
    s1.length + 5 ≤ s.length ∧ r.itemsOk := by
  rw [spcr_list_eq] at h
  obtain ⟨⟨ls, s2⟩, hsl, h2⟩ := bind_eq_ok h
  have hspec := start_list_read_spec hsl
  cases ls with
  | Simple l =>
    simp only [Res.ok.injEq, Prod.mk.injEq] at h2
    obtain ⟨h3, h4⟩ := h2
    subst h3; subst h4
    exact ⟨by omega, trivial⟩
  | ListOfList st =>
    simp only [Res.ok.injEq, Prod.mk.injEq] at h2
    obtain ⟨h3, h4⟩ := h2
    subst h3; subst h4
    refine ⟨by omega, ?_⟩
    simpa [ReadStart.itemsOk, items_measure, ListStart.itemsOk] using hspec.2
  | ListOfCompound st =>
    simp only [Res.ok.injEq, Prod.mk.injEq] at h2
    obtain ⟨h3, h4⟩ := h2
    subst h3; subst h4
    refine ⟨by omega, ?_⟩
    simpa [ReadStart.itemsOk, items_measure, ListStart.itemsOk] using hspec.2

theorem start_potentially_complex_read_spec {t : Nat} {s : ByteStream}
    {r : ReadStart} {s1 : ByteStream}
    (h : start_potentially_complex_read t s = .ok (r, s1)) :
    s1.length ≤ s.length ∧ r.itemsOk := by
  by_cases h9 : t = TAG_LIST
  · subst h9
    have := start_potentially_complex_read_list_spec h
    exact ⟨by omega, this.2⟩
  · unfold start_potentially_complex_read at h
    cases hsv : is_simple_value t with
    | error u => rw [hsv] at h; simp at h
    | ok b =>
      rw [hsv] at h
      cases b with
      | true =>
        simp only at h
        obtain ⟨⟨v, s2⟩, hr, h2⟩ := bind_eq_ok h
        simp only [Res.ok.injEq, Prod.mk.injEq] at h2
        obtain ⟨h3, h4⟩ := h2
        subst h3; subst h4
        exact ⟨read_simple_value_spec hr, trivial⟩
      | false =>
        simp only at h
        rw [if_neg h9] at h
        by_cases h10 : t = TAG_COMPOUND
        · rw [if_pos h10] at h
          simp only [Res.ok.injEq, Prod.mk.injEq] at h
          obtain ⟨h3, h4⟩ := h
          subst h3; subst h4
          exact ⟨le_refl _, by simp [ReadStart.itemsOk, items_measure]⟩
        · rw [if_neg h10] at h
          simp at h

/-! ## The compound entry loop -/

theorem compound_go_spec :
    ∀ (fuel : Nat) (st : ReadingCompound) (s : ByteStream)
      (res : ComplexReadResult) (st1 : ReadingCompound) (s1 : ByteStream),
      compound_continue_read_go fuel st s = .ok ((res, st1), s1) →
      s1.length < s.length ∧ res ≠ .NotFinished ∧
        ∀ rc, res = .DescendInto rc →
          items_measure rc < 4294967296 ∧
          st1.name_of_current_value.isSome = true := by
  intro fuel
  induction fuel with
  | zero =>
    intro st s res st1 s1 h
    simp [compound_continue_read_go] at h
  | succ m ih =>
    intro st s res st1 s1 h
    unfold compound_continue_read_go at h
    obtain ⟨⟨t, s2⟩, h8, h1⟩ := bind_eq_ok h
    have hs8 := (read_u8_spec h8).1
    simp only at h1
    by_cases hend : t = TAG_END
    case pos =>
      rw [if_pos hend] at h1
      simp only [Res.ok.injEq, Prod.mk.injEq] at h1
      obtain ⟨⟨h2, h3⟩, h4⟩ := h1
      subst h2; subst h3; subst h4
      refine ⟨by omega, by simp, ?_⟩
      intro rc hx
      exact absurd hx (by simp)
    rw [if_neg hend] at h1
    obtain ⟨⟨nm, s3⟩, hstr, h2⟩ := bind_eq_ok h1
    obtain ⟨⟨mcr, s4⟩, hsp, h3⟩ := bind_eq_ok h2
    have hst : s3.length + 2 ≤ s2.length := read_nbt_string_spec hstr
    have hsp2 := start_potentially_complex_read_spec hsp
    have hsp1 : s4.length ≤ s3.length := hsp2.1
    cases mcr with
    | Simple v =>
      simp only at h3
      have := ih _ _ _ _ _ h3
      refine ⟨by omega, this.2.1, this.2.2⟩
    | Complex rc0 =>
      simp only [Res.ok.injEq, Prod.mk.injEq] at h3
      obtain ⟨⟨h4, h5⟩, h6⟩ := h3
      subst h4; subst h5; subst h6
      refine ⟨by omega, by simp, ?_⟩
      intro rc hx
      injection hx with hx1
      subst hx1
      have := hsp2.2
      simp only [ReadStart.itemsOk] at this
      exact ⟨this, by simp⟩

/-! ## Tameness: no fuel exhaustion, no stack-invariant panics -/

theorem tame_bind {α β : Type} {r : Res α} {f : α → Res β}
    (hr : r.tame) (hf : ∀ a, (f a).tame) : (r.bind f).tame := by
  cases r with
  | ok a => exact hf a
  | err e => exact trivial
  | panicked p => exact hr
  | fuelOut => exact hr

theorem tame_bind_ok {α β : Type} {r : Res α} {f : α → Res β}
    (hr : r.tame) (hf : ∀ a, r = .ok a → (f a).tame) : (r.bind f).tame := by
  cases r with
  | ok a => exact hf a rfl
  | err e => exact trivial
  | panicked p => exact hr
  | fuelOut => exact hr

/-- A panic at any site other than the two stack-invariant unwraps is
tame. -/
theorem benign_tame {α : Type} {p : PanicSite} (h1 : p ≠ .emptyStackUnwrap)
    (h2 : p ≠ .pendingNameUnwrap) : (Res.panicked p : Res α).tame := ⟨h1, h2⟩

theorem read_u8_tame (s : ByteStream) : (read_u8 s).tame := by
  cases s <;> trivial

theorem read_i8_tame (s : ByteStream) : (read_i8 s).tame := by
  cases s <;> trivial

theorem readExactN_tame (n : Nat) (s : ByteStream) : (readExactN n s).tame := by
  unfold readExactN
  split <;> trivial

theorem read_u16_tame (s : ByteStream) : (read_u16 s).tame :=
  tame_bind (readExactN_tame 2 s) fun ⟨_, _⟩ => trivial

theorem read_u32_tame (s : ByteStream) : (read_u32 s).tame :=
  tame_bind (readExactN_tame 4 s) fun ⟨_, _⟩ => trivial

theorem read_i16_tame (s : ByteStream) : (read_i16 s).tame :=
  tame_bind (readExactN_tame 2 s) fun ⟨_, _⟩ => trivial

theorem read_i32_tame (s : ByteStream) : (read_i32 s).tame :=
  tame_bind (readExactN_tame 4 s) fun ⟨_, _⟩ => trivial

theorem read_i64_tame (s : ByteStream) : (read_i64 s).tame :=
  tame_bind (readExactN_tame 8 s) fun ⟨_, _⟩ => trivial

theorem read_f32_tame (s : ByteStream) : (read_f32 s).tame :=
  tame_bind (readExactN_tame 4 s) fun ⟨_, _⟩ => trivial

theorem read_f64_tame (s : ByteStream) : (read_f64 s).tame :=
  tame_bind (readExactN_tame 8 s) fun ⟨_, _⟩ => trivial

theorem read_n_bytes_tame (n : Nat) (s : ByteStream) :
    (read_n_bytes_to_vector n s).tame := by
  by_cases hc : min n s.length = n <;>
    simp [read_n_bytes_to_vector, hc, Res.tame]

theorem read_nbt_string_tame (s : ByteStream) : (read_nbt_string s).tame :=
  tame_bind (read_u16_tame s) fun ⟨len, s1⟩ =>
    tame_bind (read_n_bytes_tame len s1) fun ⟨bs, s2⟩ => by
      dsimp only
      split <;> trivial

theorem read_nbt_byte_array_tame (s : ByteStream) :
    (read_nbt_byte_array s).tame :=
  tame_bind (read_u32_tame s) fun ⟨len, s1⟩ => read_n_bytes_tame len s1

theorem read_repeated_tame {α : Type} {f : ByteStream → Res (α × ByteStream)}
    (hf : ∀ s, (f s).tame) : ∀ (n : Nat) (s : ByteStream),
    (read_repeated f n s).tame := by
  intro n
  induction n with
  | zero => intro s; trivial
  | succ m ih =>
    intro s
    exact tame_bind (hf s) fun ⟨x, s1⟩ =>
      tame_bind (ih s1) fun ⟨xs, s2⟩ => trivial

theorem read_nbt_int_array_tame (s : ByteStream) :
    (read_nbt_int_array s).tame :=
  tame_bind (read_u32_tame s) fun ⟨len, s1⟩ =>
    read_repeated_tame read_i32_tame len s1

theorem read_simple_value_tame (t : Nat) (s : ByteStream) :
    (read_simple_value t s).tame := by
  unfold read_simple_value
  split_ifs
  all_goals
    first
    | exact tame_bind (read_i8_tame _) fun ⟨v, s1⟩ => trivial
    | exact tame_bind (read_i16_tame _) fun ⟨v, s1⟩ => trivial
    | exact tame_bind (read_i32_tame _) fun ⟨v, s1⟩ => trivial
    | exact tame_bind (read_i64_tame _) fun ⟨v, s1⟩ => trivial
    | exact tame_bind (read_f32_tame _) fun ⟨v, s1⟩ => trivial
    | exact tame_bind (read_f64_tame _) fun ⟨v, s1⟩ => trivial
    | exact tame_bind (read_nbt_byte_array_tame _) fun ⟨v, s1⟩ => trivial
    | exact tame_bind (read_nbt_string_tame _) fun ⟨v, s1⟩ => trivial
    | exact tame_bind (read_nbt_int_array_tame _) fun ⟨v, s1⟩ => trivial
    | exact benign_tame (by simp) (by simp)

theorem start_list_read_tame (s : ByteStream) : (start_list_read s).tame := by
  unfold start_list_read
  refine tame_bind (read_u8_tame s) ?_
  rintro ⟨t, s1⟩
  refine tame_bind (read_u32_tame s1) ?_
  rintro ⟨number, s2⟩
  dsimp only
  by_cases c0 : t = TAG_END ∧ number = 0
  case pos => rw [if_pos c0]; trivial
  rw [if_neg c0]
  by_cases c1 : t = TAG_END
  case pos => rw [if_pos c1]; trivial
  rw [if_neg c1]
  by_cases c2 : t = TAG_BYTE
  case pos =>
    rw [if_pos c2]
    exact tame_bind (read_repeated_tame read_i8_tame _ _) fun ⟨l, s3⟩ => trivial
  rw [if_neg c2]
  by_cases c3 : t = TAG_SHORT
  case pos =>
    rw [if_pos c3]
    exact tame_bind (read_repeated_tame read_i16_tame _ _) fun ⟨l, s3⟩ => trivial
  rw [if_neg c3]
  by_cases c4 : t = TAG_INT
  case pos =>
    rw [if_pos c4]
    exact tame_bind (read_repeated_tame read_i32_tame _ _) fun ⟨l, s3⟩ => trivial
  rw [if_neg c4]
  by_cases c5 : t = TAG_LONG
  case pos =>
    rw [if_pos c5]
    exact tame_bind (read_repeated_tame read_i64_tame _ _) fun ⟨l, s3⟩ => trivial
  rw [if_neg c5]
  by_cases c6 : t = TAG_FLOAT
  case pos =>
    rw [if_pos c6]
    exact tame_bind (read_repeated_tame read_f32_tame _ _) fun ⟨l, s3⟩ => trivial
  rw [if_neg c6]
  by_cases c7 : t = TAG_DOUBLE
  case pos =>
    rw [if_pos c7]
    exact tame_bind (read_repeated_tame read_f64_tame _ _) fun ⟨l, s3⟩ => trivial
  rw [if_neg c7]
  by_cases c8 : t = TAG_BYTE_ARRAY
  case pos =>
    rw [if_pos c8]
    exact tame_bind (read_repeated_tame read_nbt_byte_array_tame _ _)
      fun ⟨l, s3⟩ => trivial
  rw [if_neg c8]
  by_cases c9 : t = TAG_STRING
  case pos =>
    rw [if_pos c9]
    exact tame_bind (read_repeated_tame read_nbt_string_tame _ _)
      fun ⟨l, s3⟩ => trivial
  rw [if_neg c9]
  by_cases c10 : t = TAG_LIST
  case pos => rw [if_pos c10]; trivial
  rw [if_neg c10]
  by_cases c11 : t = TAG_COMPOUND
  case pos => rw [if_pos c11]; trivial
  rw [if_neg c11]
  by_cases c12 : t = TAG_INT_ARRAY
  case pos =>
    rw [if_pos c12]
    exact tame_bind (read_repeated_tame read_nbt_int_array_tame _ _)
      fun ⟨l, s3⟩ => trivial
  rw [if_neg c12]
  trivial

theorem start_potentially_complex_read_tame (t : Nat) (s : ByteStream) :
    (start_potentially_complex_read t s).tame := by
  unfold start_potentially_complex_read
  cases hsv : is_simple_value t with
  | error u => trivial
  | ok b =>
    cases b with
    | true =>
      exact tame_bind (read_simple_value_tame t s) fun ⟨v, s1⟩ => trivial
    | false =>
      dsimp only
      split_ifs
      · exact tame_bind (start_list_read_tame s) fun ⟨ls, s1⟩ => by
          cases ls <;> trivial
      · trivial
      · exact benign_tame (by simp) (by simp)

theorem compound_go_tame :
    ∀ (fuel : Nat) (st : ReadingCompound) (s : ByteStream),
      s.length < fuel → (compound_continue_read_go fuel st s).tame := by
  intro fuel
  induction fuel with
  | zero => intro st s h; exact absurd h (Nat.not_lt_zero _)
  | succ m ih =>
    intro st s hlen
    unfold compound_continue_read_go
    refine tame_bind_ok (read_u8_tame s) ?_
    rintro ⟨t, s2⟩ h8
    have hs8 := (read_u8_spec h8).1
    dsimp only
    by_cases hend : t = TAG_END
    · rw [if_pos hend]; trivial
    · rw [if_neg hend]
      refine tame_bind_ok (read_nbt_string_tame s2) ?_
      rintro ⟨nm, s3⟩ hstr
      have h2 : s3.length + 2 ≤ s2.length := read_nbt_string_spec hstr
      refine tame_bind_ok (start_potentially_complex_read_tame t s3) ?_
      rintro ⟨mcr, s4⟩ hsp
      have h3 : s4.length ≤ s3.length := (start_potentially_complex_read_spec hsp).1
      cases mcr with
      | Simple v => exact ih _ s4 (by omega)
      | Complex rc => trivial

theorem lol_continue_tame (st : ReadingListOfList) (s : ByteStream) :
    (st.continue_read s).tame := by
  unfold ReadingListOfList.continue_read
  split
  · trivial
  · refine tame_bind (start_potentially_complex_read_tame TAG_LIST s) ?_
    rintro ⟨mcr, s1⟩
    cases mcr with
    | Simple v =>
      cases v <;> trivial
    | Complex rc => trivial

theorem loc_continue_tame (st : ReadingListOfCompound) (s : ByteStream) :
    (st.continue_read s).tame := by
  unfold ReadingListOfCompound.continue_read
  split
  · trivial
  · refine tame_bind (start_potentially_complex_read_tame TAG_COMPOUND s) ?_
    rintro ⟨mcr, s1⟩
    cases mcr with
    | Simple v => exact benign_tame (by simp) (by simp)
    | Complex rc => trivial

theorem continue_read_tame (rc : ReadingComplex) (s : ByteStream) :
    (rc.continue_read s).tame := by
  cases rc with
  | compound st =>
    exact tame_bind (compound_go_tame (s.length + 1) st s (Nat.lt_succ_self _))
      fun ⟨⟨r, st1⟩, s1⟩ => trivial
  | listOfList st =>
    exact tame_bind (lol_continue_tame st s) fun ⟨⟨r, st1⟩, s1⟩ => trivial
  | listOfCompound st =>
    exact tame_bind (loc_continue_tame st s) fun ⟨⟨r, st1⟩, s1⟩ => trivial

theorem descended_tame {rc : ReadingComplex} (hn : compound_named rc)
    (v : Value) : (rc.descended_read_complete v).tame := by
  cases rc with
  | compound st =>
    simp only [ReadingComplex.descended_read_complete]
    unfold ReadingCompound.descended_read_complete
    cases hno : st.name_of_current_value with
    | none =>
      exfalso
      simp only [compound_named, hno, Option.isSome] at hn
      exact Bool.noConfusion hn
    | some nm => trivial
  | listOfList st =>
    simp only [ReadingComplex.descended_read_complete]
    unfold ReadingListOfList.descended_read_complete
    cases v <;> trivial
  | listOfCompound st =>
    simp only [ReadingComplex.descended_read_complete]
    unfold ReadingListOfCompound.descended_read_complete
    cases v <;> trivial

theorem descended_items {rc rc1 : ReadingComplex} {v : Value}
    (h : rc.descended_read_complete v = .ok rc1) :
    items_measure rc1 = items_measure rc := by
  cases rc with
  | compound st =>
    simp only [ReadingComplex.descended_read_complete] at h
    unfold ReadingCompound.descended_read_complete at h
    cases hno : st.name_of_current_value with
    | none => rw [hno] at h; simp [Res.bind] at h
    | some nm =>
      rw [hno] at h
      simp only [Res.bind, Res.ok.injEq] at h
      subst h
      rfl
  | listOfList st =>
    simp only [ReadingComplex.descended_read_complete] at h
    unfold ReadingListOfList.descended_read_complete at h
    cases v <;>
      first
      | (simp only [Res.bind, Res.ok.injEq] at h; subst h; rfl)
      | simp [Res.bind] at h
  | listOfCompound st =>
    simp only [ReadingComplex.descended_read_complete] at h
    unfold ReadingListOfCompound.descended_read_complete at h
    cases v <;>
      first
      | (simp only [Res.bind, Res.ok.injEq] at h; subst h; rfl)
      | simp [Res.bind] at h

/-! ## One driving-loop step -/

/-- What one successful `continue_read` call guarantees: any descended
child carries a bounded pending count and leaves its parent's pending
name set when the parent is a compound; and the step either strictly
consumes input without raising the state's pending count, or finishes a
list state with an exhausted count, or (a list-of-compound dispatch)
consumes nothing but trades one pending count for a fresh zero-count
child. -/
theorem continue_read_spec {rc : ReadingComplex} {s : ByteStream}
    {res : ComplexReadResult} {rc1 : ReadingComplex} {s1 : ByteStream}
    (h : rc.continue_read s = .ok ((res, rc1), s1)) :
    (∀ next, res = .DescendInto next →
        items_measure next < 4294967296 ∧ compound_named rc1) ∧
    ( (s1.length < s.length ∧ items_measure rc1 ≤ items_measure rc)
      ∨ (s1 = s ∧ res = .Done ∧ rc1 = rc)
      ∨ (s1 = s ∧ items_measure rc1 + 1 = items_measure rc ∧
          ∀ next, res = .DescendInto next → items_measure next = 0) ) := by
  cases rc with
  | compound st =>
    simp only [ReadingComplex.continue_read] at h
    obtain ⟨⟨⟨res0, st1⟩, s1'⟩, hc, h2⟩ := bind_eq_ok h
    simp only [Res.ok.injEq, Prod.mk.injEq] at h2
    obtain ⟨⟨hr1, hr2⟩, hr3⟩ := h2
    subst hr1; subst hr2; subst hr3
    have hspec := compound_go_spec (s.length + 1) st s res0 st1 s1' hc
    refine ⟨?_, Or.inl ⟨hspec.1, Nat.le_refl 0⟩⟩
    intro next hx
    obtain ⟨hi, hn⟩ := hspec.2.2 next hx
    exact ⟨hi, hn⟩
  | listOfList st =>
    simp only [ReadingComplex.continue_read] at h
    obtain ⟨⟨⟨res0, st1⟩, s1'⟩, hc, h2⟩ := bind_eq_ok h
    simp only [Res.ok.injEq, Prod.mk.injEq] at h2
    obtain ⟨⟨hr1, hr2⟩, hr3⟩ := h2
    subst hr1; subst hr2; subst hr3
    unfold ReadingListOfList.continue_read at hc
    by_cases hz : st.items_remaining = 0
    · rw [if_pos hz] at hc
      simp only [Res.ok.injEq, Prod.mk.injEq] at hc
      obtain ⟨⟨hq1, hq2⟩, hq3⟩ := hc
      subst hq1; subst hq2; subst hq3
      refine ⟨?_, Or.inr (Or.inl ⟨rfl, rfl, rfl⟩)⟩
      intro next hx
      exact absurd hx (by simp)
    · rw [if_neg hz] at hc
      obtain ⟨⟨mcr, s2⟩, hsp, h3⟩ := bind_eq_ok hc
      have hspec := start_potentially_complex_read_list_spec hsp
      have hsp5 : s2.length + 5 ≤ s.length := hspec.1
      cases mcr with
      | Simple v =>
        cases v <;>
          first
          | (simp only [Res.ok.injEq, Prod.mk.injEq] at h3
             obtain ⟨⟨hq1, hq2⟩, hq3⟩ := h3
             subst hq1; subst hq2; subst hq3
             refine ⟨?_, Or.inl ⟨by omega, ?_⟩⟩
             · intro next hx
               exact absurd hx (by simp)
             · simp only [items_measure]
               omega)
          | simp at h3
      | Complex rc0 =>
        simp only [Res.ok.injEq, Prod.mk.injEq] at h3
        obtain ⟨⟨hq1, hq2⟩, hq3⟩ := h3
        subst hq1; subst hq2; subst hq3
        refine ⟨?_, Or.inl ⟨by omega, ?_⟩⟩
        · intro next hx
          injection hx with hx1
          subst hx1
          have hio := hspec.2
          simp only [ReadStart.itemsOk] at hio
          exact ⟨hio, trivial⟩
        · simp only [items_measure]
          omega
  | listOfCompound st =>
    simp only [ReadingComplex.continue_read] at h
    obtain ⟨⟨⟨res0, st1⟩, s1'⟩, hc, h2⟩ := bind_eq_ok h
    simp only [Res.ok.injEq, Prod.mk.injEq] at h2
    obtain ⟨⟨hr1, hr2⟩, hr3⟩ := h2
    subst hr1; subst hr2; subst hr3
    unfold ReadingListOfCompound.continue_read at hc
    by_cases hz : st.items_remaining = 0
    · rw [if_pos hz] at hc
      simp only [Res.ok.injEq, Prod.mk.injEq] at hc
      obtain ⟨⟨hq1, hq2⟩, hq3⟩ := hc
      subst hq1; subst hq2; subst hq3
      refine ⟨?_, Or.inr (Or.inl ⟨rfl, rfl, rfl⟩)⟩
      intro next hx
      exact absurd hx (by simp)
    · rw [if_neg hz] at hc
      rw [start_potentially_complex_read_compound] at hc
      simp only [Res.bind] at hc
      simp only [Res.ok.injEq, Prod.mk.injEq] at hc
      obtain ⟨⟨hq1, hq2⟩, hq3⟩ := hc
      subst hq1; subst hq2; subst hq3
      refine ⟨?_, Or.inr (Or.inr ⟨rfl, ?_, ?_⟩)⟩
      · intro next hx
        injection hx with hx1
        subst hx1
        refine ⟨?_, trivial⟩
        simp only [items_measure]
        omega
      · simp only [items_measure]
        omega
      · intro next hx
        injection hx with hx1
        subst hx1
        rfl

/-! ## The driving loop -/

/-- `loop_measure` on a non-empty stack, with the power of two spelled
out for linear arithmetic. -/
theorem loop_measure_cons (w : ReadingComplex) (rest : List ReadingComplex)
    (s : ByteStream) :
    loop_measure (w :: rest) s =
      8589934592 * s.length + 2 * items_measure w +
        2 * (rest.map items_measure).sum + rest.length + 1 := by
  have h33 : (2 : Nat) ^ 33 = 8589934592 := by norm_num
  simp only [loop_measure, List.map_cons, List.sum_cons, List.length_cons, h33]
  ring

/-- The driving loop of `parse_nbt_stream`, run on a non-empty stack
whose below-top compound entries all hold their pending names, with fuel
above the loop measure, never exhausts its fuel and never reaches the
empty-stack or pending-name unwraps. -/
theorem parse_loop_tame :
    ∀ (fuel : Nat) (stack : List ReadingComplex) (s : ByteStream),
      loop_measure stack s < fuel → stack ≠ [] →
      (∀ rc ∈ stack.tail, compound_named rc) →
      (parse_loop fuel stack s).tame := by
  intro fuel
  induction fuel with
  | zero =>
    intro stack s hm hne hinv
    exact absurd hm (Nat.not_lt_zero _)
  | succ m ih =>
    intro stack s hm hne hinv
    cases stack with
    | nil => exact absurd rfl hne
    | cons w rest =>
      have hinv0 : ∀ rc ∈ rest, compound_named rc := fun rc hrc => hinv rc hrc
      unfold parse_loop
      dsimp only
      refine tame_bind_ok (continue_read_tame w s) ?_
      rintro ⟨⟨res, w1⟩, s1⟩ hc
      obtain ⟨hdesc, hcases⟩ := continue_read_spec hc
      dsimp only
      cases res with
      | NotFinished =>
        refine ih (w1 :: rest) s1 ?_ (by simp) hinv0
        rw [loop_measure_cons] at hm ⊢
        rcases hcases with ⟨hlt, hle⟩ | ⟨heq, hres, hrc⟩ | ⟨heq, hsucc, hnext⟩
        · omega
        · exact absurd hres (by simp)
        · subst heq
          omega
      | DescendInto next =>
        obtain ⟨hni, hnamed⟩ := hdesc next rfl
        refine ih (next :: w1 :: rest) s1 ?_ (by simp) ?_
        · rw [loop_measure_cons] at hm
          rw [loop_measure_cons]
          simp only [List.map_cons, List.sum_cons, List.length_cons]
          rcases hcases with ⟨hlt, hle⟩ | ⟨heq, hres, hrc⟩ | ⟨heq, hsucc, hnext⟩
          · omega
          · exact absurd hres (by simp)
          · have h0 : items_measure next = 0 := hnext next rfl
            subst heq
            omega
        · intro rc hrc
          have hrc2 : rc ∈ w1 :: rest := hrc
          rcases List.mem_cons.mp hrc2 with hq | hq
          · subst hq
            exact hnamed
          · exact hinv0 rc hq
      | Done =>
        dsimp only
        cases rest with
        | nil => trivial
        | cons parent rest2 =>
          have hp : compound_named parent := hinv0 parent (by simp)
          refine tame_bind_ok (descended_tame hp _) ?_
          intro parent1 hd
          have hitems := descended_items hd
          refine ih (parent1 :: rest2) s1 ?_ (by simp) ?_
          · rw [loop_measure_cons] at hm ⊢
            simp only [List.map_cons, List.sum_cons, List.length_cons] at hm
            rw [hitems]
            simp only [items_measure] at hm ⊢
            rcases hcases with ⟨hlt, hle⟩ | ⟨heq, hres, hrc⟩ | ⟨heq, hsucc, hnext⟩
            · omega
            · subst heq
              omega
            · subst heq
              omega
          · intro rc hrc
            have hrc2 : rc ∈ rest2 := hrc
            exact hinv0 rc (List.mem_cons_of_mem parent hrc2)

/-- The whole document parse is tame: it cannot exhaust its fuel and
cannot reach the stack unwraps. -/
theorem parse_nbt_stream_tame (s : ByteStream) : (parse_nbt_stream s).tame := by
  unfold parse_nbt_stream
  refine tame_bind (read_u8_tame s) ?_
  rintro ⟨t, s1⟩
  refine tame_bind (read_nbt_string_tame s1) ?_
  rintro ⟨nm, s2⟩
  refine tame_bind (start_potentially_complex_read_tame t s2) ?_
  rintro ⟨rs, s3⟩
  cases rs with
  | Simple v => trivial
  | Complex reading =>
    dsimp only
    refine tame_bind
      (parse_loop_tame _ [reading] s3 (Nat.lt_succ_self _) (by simp) ?_) ?_
    · intro rc hrc
      exact absurd hrc (by simp)
    · rintro ⟨v, s4⟩
      trivial

/-! ## Evaluation helpers for the claim theorems -/

theorem read_u16_cons (b1 b2 : Nat) (rest : ByteStream) :
    read_u16 (b1 :: b2 :: rest) = .ok (beNat [b1, b2], rest) := by
  unfold read_u16 readExactN
  rw [if_neg (by simp)]
  rfl

theorem read_u32_cons (b1 b2 b3 b4 : Nat) (rest : ByteStream) :
    read_u32 (b1 :: b2 :: b3 :: b4 :: rest) =
      .ok (beNat [b1, b2, b3, b4], rest) := by
  unfold read_u32 readExactN
  rw [if_neg (by simp)]
  rfl

/-! ## Claim theorems -/

/-- C1: the spec says a tag-type code of IntArray (11) in a named
context is simple and decodes to a `Value::IntArray` in one primitive
step.  The code instead classifies `TAG_INT_ARRAY` as not simple
(`is_simple_value`, reader.rs line 137), so a named-context IntArray
falls into the catch-all `panic!` of `start_potentially_complex_read`
(line 316) — even though `read_simple_value` has a perfectly good (but
unreachable) `TAG_INT_ARRAY` arm.  Evaluated at the failing input
`[0x0B, 0x00, 0x00]` (root tag IntArray with an empty root name). -/
theorem nbt_int_array_named_context_code_bug :
    parse_nbt_stream [11, 0, 0] = .panicked (.startReadNotListOrCompound 11) ∧
    is_simple_value TAG_INT_ARRAY = .ok false ∧
    read_simple_value TAG_INT_ARRAY [0, 0, 0, 0] = .ok (.IntArray [], []) :=
  ⟨rfl, rfl, rfl⟩

/-- C2 counterexample: on the stream `[0x00, 0x00, 0x00]` (root tag-type
End, empty root name) `parse_nbt_stream` fails with `UnknownTagType 0`,
not with `InvalidTagType` as the claim states: the End code falls into
`is_simple_value`'s catch-all. -/
theorem root_end_counterexample :
    parse_nbt_stream [0, 0, 0] = .err (.UnknownTagType 0) ∧
    parse_nbt_stream [0, 0, 0] ≠ .err .InvalidTagType := by
  have h1 : parse_nbt_stream [0, 0, 0] = .err (.UnknownTagType 0) := rfl
  refine ⟨h1, ?_⟩
  intro hq
  rw [h1] at hq
  simp at hq

/-- C2 amended: for every input stream whose root tag-type byte is the
End code 0x00 and whose root name parses, `parse_nbt_stream` fails with
`UnknownTagType 0` — the code treats End at a value position through the
same catch-all as genuinely unknown codes, and `InvalidTagType` is
reserved for the non-empty-list-with-End-element-type header. -/
theorem root_end_unknown_tag_type (s : ByteStream) (name : NbtStr)
    (rest : ByteStream) (h : read_nbt_string s = .ok (name, rest)) :
    parse_nbt_stream (0 :: s) = .err (.UnknownTagType 0) := by
  unfold parse_nbt_stream
  rw [show read_u8 (0 :: s) = .ok (0, s) from rfl]
  simp only [Res.bind]
  rw [h]
  simp only [Res.bind]
  rw [show start_potentially_complex_read 0 rest =
        .err (.UnknownTagType 0) from rfl]

/-- C2 witness: the amended theorem applied at the concrete stream
`[0x00, 0x00, 0x00]`. -/
theorem root_end_unknown_tag_type_witness :
    parse_nbt_stream [0, 0, 0] = .err (.UnknownTagType 0) :=
  root_end_unknown_tag_type [0, 0] [] [] rfl

/-- C3: a stream ending partway through a fixed-width numeric field does
NOT produce `NbtReadError::UnexpectedEof`: `byteorder`'s reader raises
an `UnexpectedEof`-kind `io::Error`, and `From<io::Error>` (reader.rs
lines 60-64) wraps every io error as `NbtReadError::IoError`.  The
code's own `test_read_signed` (reader.rs lines 89-95) expects
`NbtReadError::UnexpectedEof` from exactly this situation, so the code
contradicts its own test.  Evaluated at a one-byte stream where a 2-byte
Short is required, and at the document `[0x02, 0x00, 0x00, 0xAB]` (root
Short with only one payload byte). -/
theorem truncated_fixed_width_field_io_error :
    read_i16 [222] = .err (.IoError .unexpectedEof) ∧
    read_i16 [222] ≠ .err .UnexpectedEof ∧
    parse_nbt_stream [2, 0, 0, 171] = .err (.IoError .unexpectedEof) := by
  have h1 : read_i16 [222] = .err (.IoError .unexpectedEof) := rfl
  refine ⟨h1, ?_, rfl⟩
  intro hq
  rw [h1] at hq
  simp at hq

/-- C6: a list header with inner tag-type 0x00 (End) and count 0
decodes to the Empty list case, consuming exactly the five header
bytes; the same inner tag-type with a non-zero count fails with
`InvalidTagType`. -/
theorem empty_list_marker_cases (b1 b2 b3 b4 : Nat) (rest : ByteStream) :
    (beNat [b1, b2, b3, b4] = 0 →
       start_list_read (0 :: b1 :: b2 :: b3 :: b4 :: rest) =
         .ok (.Simple .Empty, rest))
    ∧ (0 < beNat [b1, b2, b3, b4] →
       start_list_read (0 :: b1 :: b2 :: b3 :: b4 :: rest) =
         .err .InvalidTagType) := by
  constructor
  · intro hz
    unfold start_list_read
    rw [show read_u8 (0 :: b1 :: b2 :: b3 :: b4 :: rest) =
          .ok (0, b1 :: b2 :: b3 :: b4 :: rest) from rfl]
    simp only [Res.bind]
    rw [read_u32_cons]
    simp only [Res.bind]
    rw [if_pos ⟨rfl, hz⟩]
  · intro hp
    unfold start_list_read
    rw [show read_u8 (0 :: b1 :: b2 :: b3 :: b4 :: rest) =
          .ok (0, b1 :: b2 :: b3 :: b4 :: rest) from rfl]
    simp only [Res.bind]
    rw [read_u32_cons]
    simp only [Res.bind]
    rw [if_neg (fun hand => absurd hand.2 (by omega))]
    rw [if_pos (show (0 : Nat) = TAG_END from rfl)]

/-- C6 witness: the theorem applied at the concrete headers
`[0x00, 0x00000000]` and `[0x00, 0x00000001]`. -/
theorem empty_list_marker_cases_witness :
    start_list_read [0, 0, 0, 0, 0] = .ok (.Simple .Empty, []) ∧
    start_list_read [0, 0, 0, 0, 1] = .err .InvalidTagType :=
  ⟨(empty_list_marker_cases 0 0 0 0 []).1 (by decide),
   (empty_list_marker_cases 0 0 0 1 []).2 (by decide)⟩

/-- C7: a String or ByteArray whose declared length prefix exceeds the
bytes remaining in the stream fails with `UnexpectedEof`: the single
`read` call of `read_n_bytes_to_vector` delivers only what remains, the
short count is rejected immediately, and no retry is attempted. -/
theorem declared_length_truncation_eof :
    (∀ (b1 b2 : Nat) (rest : ByteStream), rest.length < beNat [b1, b2] →
       read_nbt_string (b1 :: b2 :: rest) = .err .UnexpectedEof)
    ∧ (∀ (b1 b2 b3 b4 : Nat) (rest : ByteStream),
         rest.length < beNat [b1, b2, b3, b4] →
       read_nbt_byte_array (b1 :: b2 :: b3 :: b4 :: rest) =
         .err .UnexpectedEof) := by
  constructor
  · intro b1 b2 rest hlt
    unfold read_nbt_string
    rw [read_u16_cons]
    simp only [Res.bind]
    have hn : read_n_bytes_to_vector (beNat [b1, b2]) rest =
        .err .UnexpectedEof := by
      simp only [read_n_bytes_to_vector]
      rw [if_pos (by omega)]
    rw [hn]
  · intro b1 b2 b3 b4 rest hlt
    unfold read_nbt_byte_array
    rw [read_u32_cons]
    simp only [Res.bind]
    simp only [read_n_bytes_to_vector]
    rw [if_pos (by omega)]

/-- C7 witness: a String claiming 5 bytes with 0 remaining, and a
ByteArray claiming 3 bytes with 1 remaining. -/
theorem declared_length_truncation_eof_witness :
    read_nbt_string [0, 5] = .err .UnexpectedEof ∧
    read_nbt_byte_array [0, 0, 0, 3, 1] = .err .UnexpectedEof :=
  ⟨declared_length_truncation_eof.1 0 5 [] (by decide),
   declared_length_truncation_eof.2 0 0 0 3 [1] (by decide)⟩

/-- C8: `parse_nbt_stream` terminates on every finite input: its
driving loop, run with fuel one above the loop measure, can never
exhaust that fuel, because every iteration consumes input, trades a
bounded pending count for a pushed child, or pops an entry.  However,
the loop does not always reach a returned `RootValue` or a returned
error: on `[0x0A, 0x00, 0x00, 0x0B, 0x00, 0x00]` (a compound whose
first entry has tag-type IntArray) the parse terminates in the C1 panic
instead. -/
theorem parse_nbt_stream_never_out_of_fuel :
    (∀ s : ByteStream, parse_nbt_stream s ≠ .fuelOut) ∧
    parse_nbt_stream [10, 0, 0, 11, 0, 0] =
      .panicked (.startReadNotListOrCompound 11) := by
  constructor
  · intro s hq
    have h := parse_nbt_stream_tame s
    rw [hq] at h
    exact h
  · rfl

/-- C10: for every input byte stream, the driving loop's stack is
non-empty at every `continue_read` call and pop, and a compound's
pending name is present whenever `descended_read_complete` runs, so the
`unwrap` calls inside `parse_nbt_stream`'s loop and inside
`ReadingCompound::descended_read_complete` never panic. -/
theorem stack_unwraps_never_panic (s : ByteStream) :
    parse_nbt_stream s ≠ .panicked .emptyStackUnwrap ∧
    parse_nbt_stream s ≠ .panicked .pendingNameUnwrap := by
  have h := parse_nbt_stream_tame s
  constructor
  · intro hq
    rw [hq] at h
    exact h.1 rfl
  · intro hq
    rw [hq] at h
    exact h.2 rfl

/-- C4 counterexample: one `continue_read` step on a list-of-list state
with one remaining expected element, on a stream supplying the
well-formed inner List header `[0x01, 0x00000000]` (element type Byte,
count 0), fully decodes the inner list in this very step and returns
`NotFinished` — not `Descend` — refuting "the dispatched element is
always composite at that point, and never returns NeedsMoreWork". -/
theorem list_of_list_step_counterexample :
    ReadingListOfList.continue_read ⟨1, []⟩ [1, 0, 0, 0, 0] =
      .ok ((.NotFinished, ⟨0, [.Byte []]⟩), []) := rfl

/-- C4 amended: a `continue_read` step on a list-of-list state with a
non-zero remaining count decrements the count and dispatches on the
supplied inner List header: a header declaring a composite element type
(List, 0x09, or Compound, 0x0A) yields `Descend(child)` with the child
holding the header's count and an empty accumulator; an inner list that
parses as a fully decoded simple list (simple element type, or the
empty-list marker) is appended to the accumulator and `NeedsMoreWork`
is returned; a malformed header or payload propagates its error
instead. -/
theorem list_of_list_step_cases (n : Nat) (acc : List NbtList) :
    (∀ (b1 b2 b3 b4 : Nat) (rest : ByteStream),
       ReadingListOfList.continue_read ⟨n + 1, acc⟩
           (9 :: b1 :: b2 :: b3 :: b4 :: rest) =
         .ok ((.DescendInto (.listOfList ⟨beNat [b1, b2, b3, b4], []⟩),
               ⟨n, acc⟩), rest))
    ∧ (∀ (b1 b2 b3 b4 : Nat) (rest : ByteStream),
       ReadingListOfList.continue_read ⟨n + 1, acc⟩
           (10 :: b1 :: b2 :: b3 :: b4 :: rest) =
         .ok ((.DescendInto (.listOfCompound ⟨beNat [b1, b2, b3, b4], []⟩),
               ⟨n, acc⟩), rest))
    ∧ (∀ (s s1 : ByteStream) (l : NbtList),
       start_list_read s = .ok (.Simple l, s1) →
       ReadingListOfList.continue_read ⟨n + 1, acc⟩ s =
         .ok ((.NotFinished, ⟨n, acc ++ [l]⟩), s1)) := by
  refine ⟨?_, ?_, ?_⟩
  · intro b1 b2 b3 b4 rest
    have hsl9 : start_list_read (9 :: b1 :: b2 :: b3 :: b4 :: rest) =
        .ok (.ListOfList ⟨beNat [b1, b2, b3, b4], []⟩, rest) := by
      unfold start_list_read
      rw [show read_u8 (9 :: b1 :: b2 :: b3 :: b4 :: rest) =
            .ok (9, b1 :: b2 :: b3 :: b4 :: rest) from rfl]
      simp only [Res.bind]
      rw [read_u32_cons]
      simp only [Res.bind]
      rw [if_neg (fun hand => absurd hand.1 (by decide))]
      rw [if_neg (by decide)]
      rw [if_neg (by decide)]
      rw [if_neg (by decide)]
      rw [if_neg (by decide)]
      rw [if_neg (by decide)]
      rw [if_neg (by decide)]
      rw [if_neg (by decide)]
      rw [if_neg (by decide)]
      rw [if_neg (by decide)]
      rw [if_pos (by decide)]
    unfold ReadingListOfList.continue_read
    rw [if_neg (Nat.succ_ne_zero n)]
    rw [spcr_list_eq, hsl9]
    simp [Res.bind]
  · intro b1 b2 b3 b4 rest
    have hsl10 : start_list_read (10 :: b1 :: b2 :: b3 :: b4 :: rest) =
        .ok (.ListOfCompound ⟨beNat [b1, b2, b3, b4], []⟩, rest) := by
      unfold start_list_read
      rw [show read_u8 (10 :: b1 :: b2 :: b3 :: b4 :: rest) =
            .ok (10, b1 :: b2 :: b3 :: b4 :: rest) from rfl]
      simp only [Res.bind]
      rw [read_u32_cons]
      simp only [Res.bind]
      rw [if_neg (fun hand => absurd hand.1 (by decide))]
      rw [if_neg (by decide)]
      rw [if_neg (by decide)]
      rw [if_neg (by decide)]
      rw [if_neg (by decide)]
      rw [if_neg (by decide)]
      rw [if_neg (by decide)]
      rw [if_neg (by decide)]
      rw [if_neg (by decide)]
      rw [if_neg (by decide)]
      rw [if_neg (by decide)]
      rw [if_pos (by decide)]
    unfold ReadingListOfList.continue_read
    rw [if_neg (Nat.succ_ne_zero n)]
    rw [spcr_list_eq, hsl10]
    simp [Res.bind]
  · intro s s1 l h
    unfold ReadingListOfList.continue_read
    rw [if_neg (Nat.succ_ne_zero n)]
    rw [spcr_list_eq, h]
    simp [Res.bind]

/-- C4 witness: the simple-element clause at the concrete inner list of
Bytes (count 1, payload byte 5, one trailing byte) appended after an
existing element, and the composite clause at the concrete header
`[0x09, 0x00000002]`. -/
theorem list_of_list_step_cases_witness :
    ReadingListOfList.continue_read ⟨3, [.Byte [7]]⟩ [1, 0, 0, 0, 1, 5, 99] =
      .ok ((.NotFinished, ⟨2, [.Byte [7], .Byte [5]]⟩), [99]) ∧
    ReadingListOfList.continue_read ⟨1, []⟩ [9, 0, 0, 0, 2] =
      .ok ((.DescendInto (.listOfList ⟨2, []⟩), ⟨0, []⟩), []) :=
  ⟨(list_of_list_step_cases 2 [.Byte [7]]).2.2 [1, 0, 0, 0, 1, 5, 99] [99]
      (.Byte [5]) rfl,
   (list_of_list_step_cases 0 []).1 0 0 0 2 []⟩

set_option maxRecDepth 8192 in
/-- C5: a byte stream encoding a compound that contains the same key
twice (here: a root compound whose two entries are simple values stored
under the same key, with arbitrary key, tags, payloads and trailing
bytes) decodes to a compound with exactly one entry under that key,
holding the later-encoded value: `HashMap::insert` overwrites
(last write wins). -/
theorem duplicate_key_last_write_wins
    (s0 r1 p1 r2 p2 tail : ByteStream) (rname k : NbtStr)
    (t1 t2 : Nat) (v1 v2 : Value)
    (ht1 : t1 < 256) (ht2 : t2 < 256)
    (hsim1 : is_simple_value t1 = .ok true)
    (hsim2 : is_simple_value t2 = .ok true)
    (hname : read_nbt_string s0 = .ok (rname, t1 :: r1))
    (hk1 : read_nbt_string r1 = .ok (k, p1))
    (hv1 : read_simple_value t1 p1 = .ok (v1, t2 :: r2))
    (hk2 : read_nbt_string r2 = .ok (k, p2))
    (hv2 : read_simple_value t2 p2 = .ok (v2, 0 :: tail)) :
    parse_nbt_stream (10 :: s0) = .ok ⟨rname, .Compound [(k, v2)]⟩ := by
  have ht1z : ¬(t1 = 0) := by
    intro hq
    rw [hq] at hsim1
    exact absurd hsim1 (by simp [is_simple_value, TAG_BYTE, TAG_SHORT,
      TAG_INT, TAG_LONG, TAG_FLOAT, TAG_DOUBLE, TAG_BYTE_ARRAY, TAG_STRING,
      TAG_LIST, TAG_COMPOUND, TAG_INT_ARRAY])
  have ht2z : ¬(t2 = 0) := by
    intro hq
    rw [hq] at hsim2
    exact absurd hsim2 (by simp [is_simple_value, TAG_BYTE, TAG_SHORT,
      TAG_INT, TAG_LONG, TAG_FLOAT, TAG_DOUBLE, TAG_BYTE_ARRAY, TAG_STRING,
      TAG_LIST, TAG_COMPOUND, TAG_INT_ARRAY])
  have hm1 : t1 % 256 = t1 := Nat.mod_eq_of_lt ht1
  have hm2 : t2 % 256 = t2 := Nat.mod_eq_of_lt ht2
  have hsp1 : start_potentially_complex_read t1 p1 =
      .ok (.Simple v1, t2 :: r2) := by
    unfold start_potentially_complex_read
    rw [hsim1]
    dsimp only
    rw [hv1]
    rfl
  have hsp2 : start_potentially_complex_read t2 p2 =
      .ok (.Simple v2, 0 :: tail) := by
    unfold start_potentially_complex_read
    rw [hsim2]
    dsimp only
    rw [hv2]
    rfl
  have hl1 : p1.length + 2 ≤ r1.length := read_nbt_string_spec hk1
  have hM : Compound.insert (Compound.insert [] k v1) k v2 = [(k, v2)] := by
    simp [Compound.insert]
  have hgo : compound_continue_read_go ((t1 :: r1).length + 1) ⟨[], none⟩
      (t1 :: r1) = .ok ((.Done, ⟨[(k, v2)], none⟩), tail) := by
    rw [List.length_cons]
    simp only [compound_continue_read_go, read_u8, Res.bind, hm1, hm2,
      TAG_END, ht1z, ht2z, hk1, hk2, hsp1, hsp2, if_true, if_false]
    rw [(by omega : r1.length = r1.length - 1 + 1)]
    simp only [compound_continue_read_go, read_u8, Res.bind, TAG_END,
      if_true, if_false, hM]
  have hcr : ReadingComplex.continue_read (.compound ⟨[], none⟩) (t1 :: r1) =
      .ok ((.Done, .compound ⟨[(k, v2)], none⟩), tail) := by
    simp only [ReadingComplex.continue_read, ReadingCompound.continue_read]
    rw [hgo]
    rfl
  unfold parse_nbt_stream
  rw [show read_u8 (10 :: s0) = .ok (10, s0) from rfl]
  simp only [Res.bind]
  rw [hname]
  simp only [Res.bind]
  rw [show (10 : Nat) = TAG_COMPOUND from rfl,
    start_potentially_complex_read_compound]
  simp only [Res.bind]
  generalize loop_measure [ReadingComplex.compound ⟨[], none⟩] (t1 :: r1) = F
  simp only [parse_loop]
  rw [hcr]
  rfl

/-- C5 witness: the theorem applied at the concrete document
`[0x0A, "", Byte "a"=1, Byte "a"=2, End]`: the decoded root compound
holds the single entry `"a" = Byte 2`. -/
theorem duplicate_key_last_write_wins_witness :
    parse_nbt_stream [10, 0, 0, 1, 0, 1, 97, 1, 1, 0, 1, 97, 2, 0] =
      .ok ⟨[], .Compound [([97], .Byte 2)]⟩ :=
  duplicate_key_last_write_wins
    [0, 0, 1, 0, 1, 97, 1, 1, 0, 1, 97, 2, 0]
    [0, 1, 97, 1, 1, 0, 1, 97, 2, 0]
    [1, 1, 0, 1, 97, 2, 0]
    [0, 1, 97, 2, 0]
    [2, 0]
    [] [] [97] 1 1 (.Byte 1) (.Byte 2)
    (by decide) (by decide) rfl rfl rfl rfl rfl rfl rfl

end LibMinecraft
